import Mathlib

/-!
Verification of the `failures` library (error labeling / reporting utility).

The repository contains several historical drafts of the same design.  The
embedding below covers the parts the specification claims talk about:

* `src/src/failures/core.py`   — the 1.0-dev core: `Scope`, `Failure`,
  `Failures`, `Handler`, `_validate_label`, `NamePattern`  (namespace `Core`);
* `src/src/failures.py`        — the 0.1.0 draft: `scope`, `Failure`,
  `Failures`, `handle`                                  (namespace `Legacy`);
* `src/src/failures/handler.py`— the 2.x filter layer: `filters`, the
  `FailureMatch` classes                                 (namespace `HV2`).

Machine strings are `String`/`List Char`; Python exceptions are modelled by
`ExcVal` (a class tag, a message, the `__validation_error__` attribute set by
`_invalid`, and an object identity used where Python compares by identity).
The compiled regular expression `NamePattern` is embedded through a small
Brzozowski-derivative matcher `Re` whose atoms are character classes; its
semantics is given by `Re.lang` into Mathlib's `Language Char`.
-/

set_option linter.unusedVariables false

namespace FailuresVerification

/-! ### Python exception model -/

/-- The slice of Python's exception class hierarchy that the library and the
claims exercise.  `keyboardInterrupt` and `systemExit` derive from
`BaseException` but not from `Exception`. -/
inductive ExcType where
  | baseException
  | exception
  | valueError
  | typeError
  | keyError
  | runtimeError
  | keyboardInterrupt
  | systemExit
deriving DecidableEq, Repr

/-- Proper ancestors of a class in the modelled hierarchy. -/
def ExcType.ancestors : ExcType → List ExcType
  | .baseException => []
  | .exception => [.baseException]
  | .valueError => [.exception, .baseException]
  | .typeError => [.exception, .baseException]
  | .keyError => [.exception, .baseException]
  | .runtimeError => [.exception, .baseException]
  | .keyboardInterrupt => [.baseException]
  | .systemExit => [.baseException]

/-- `a.subtypeOf b` models `issubclass(a, b)`. -/
def ExcType.subtypeOf (a b : ExcType) : Bool := a == b || a.ancestors.contains b

/-- A Python exception instance: its class, message, the
`__validation_error__` attribute set by `_invalid`, and an object id
(Python default `==` on exceptions falls back to identity). -/
structure ExcVal where
  ty : ExcType
  msg : String
  validation : Bool
  oid : Nat
deriving DecidableEq, Repr

/-- A raised package validation error: `_invalid(TypeError, ...)` or
`_invalid(ValueError, ...)`. -/
inductive VErr where
  | typeError (msg : String)
  | valueError (msg : String)
deriving DecidableEq, Repr

/-! ### A Brzozowski-derivative regular-expression matcher

`re.compile` patterns are embedded as `Re` values; `Re.rmatch` decides
acceptance and `Re.lang` gives the denoted language, with the usual
correctness theorem connecting the two. Atoms are character classes
(`Re.cls`), which keeps the embedding of `\w` and `[-.]` one node each. -/

inductive Re where
  | emp
  | eps
  | cls (p : Char → Bool)
  | cat (a b : Re)
  | alt (a b : Re)
  | star (a : Re)

/-- Does the expression accept the empty string? -/
def Re.nullable : Re → Bool
  | .emp => false
  | .eps => true
  | .cls _ => false
  | .cat a b => a.nullable && b.nullable
  | .alt a b => a.nullable || b.nullable
  | .star _ => true

/-- Brzozowski derivative with respect to one character. -/
def Re.deriv : Re → Char → Re
  | .emp, _ => .emp
  | .eps, _ => .emp
  | .cls p, c => if p c then .eps else .emp
  | .cat a b, c => if a.nullable then .alt (.cat (a.deriv c) b) (b.deriv c) else .cat (a.deriv c) b
  | .alt a b, c => .alt (a.deriv c) (b.deriv c)
  | .star a, c => .cat (a.deriv c) (.star a)

/-- Executable matcher. -/
def Re.rmatch : Re → List Char → Bool
  | r, [] => r.nullable
  | r, c :: s => (r.deriv c).rmatch s

/-- Language of a character class: the one-character strings it accepts. -/
def clsLang (p : Char → Bool) : Language Char := {l | ∃ c, p c = true ∧ l = [c]}

/-- Denoted language of a regular expression. -/
def Re.lang : Re → Language Char
  | .emp => 0
  | .eps => 1
  | .cls p => clsLang p
  | .cat a b => a.lang * b.lang
  | .alt a b => a.lang + b.lang
  | .star a => KStar.kstar a.lang

/-! ### The label pattern `NamePattern`

Source (`src/src/failures/core.py`, line 40):
`NamePattern = re.compile(r'^(\w+(\[\w+]|\(\w+\))?)+([-.](\w+(\[\w+]|\(\w+\))?))*$')`

`\w` is modelled by its ASCII part `[A-Za-z0-9_]` (Python's `\w` additionally
matches non-ASCII word characters; every label in the claims and the tests is
ASCII).  `NamePattern.match` anchors at the start, and the final `$` matches
either at the end of the string or just before one final newline, hence
`pyMatchRe` below appends an optional `'\n'`. -/

def isWordChar (c : Char) : Bool :=
  ('a' ≤ c && c ≤ 'z') || ('A' ≤ c && c ≤ 'Z') || ('0' ≤ c && c ≤ '9') || c == '_'

/-- A single literal character. -/
def Re.chr (c : Char) : Re := .cls (fun d => d == c)

/-- `r+` -/
def Re.plus1 (r : Re) : Re := .cat r (.star r)

/-- `r?` -/
def Re.opt (r : Re) : Re := .alt .eps r

/-- `\w+` -/
def wordRe : Re := Re.plus1 (.cls isWordChar)

/-- `(\[\w+]|\(\w+\))` -/
def idxRe : Re :=
  .alt (.cat (Re.chr '[') (.cat wordRe (Re.chr ']')))
       (.cat (Re.chr '(') (.cat wordRe (Re.chr ')')))

/-- `\w+(\[\w+]|\(\w+\))?` -/
def unitRe : Re := .cat wordRe (Re.opt idxRe)

/-- the character class `[-.]` -/
def sepChar (c : Char) : Bool := c == '-' || c == '.'

/-- `(\w+(\[\w+]|\(\w+\))?)+` -/
def groupRe : Re := Re.plus1 unitRe

/-- the whole pattern between `^` and `$`: the leading `+`-group of units,
then any number of tails, each one separator followed by exactly one
`\w+(\[\w+]|\(\w+\))?` unit — only the leading segment may chain several
units. -/
def namePatternRe : Re := .cat groupRe (.star (.cat (.cls sepChar) unitRe))

/-- `NamePattern.match(s)` as a whole-string test (`$` may also match just
before one final newline). -/
def pyMatchRe : Re := .cat namePatternRe (Re.opt (Re.chr '\n'))

/-- A Python value passed where a `str` label is expected. -/
inductive PyStr where
  | str (s : String)
  | nonstr (oid : Nat)
deriving DecidableEq, Repr

/-- `core._validate_label`: rejects non-strings with a validation `TypeError`,
strings outside `NamePattern` with a validation `ValueError`, and returns the
label itself otherwise. -/
def validateLabel : PyStr → Except VErr String
  | .nonstr _ => .error (.typeError "label must be a string")
  | .str s =>
    if pyMatchRe.rmatch s.data then .ok s
    else .error (.valueError ("invalid label: " ++ s))

/-! ### The language `NamePattern` denotes, and the grammar the claim states -/

/-- Nonempty strings of word characters (`\w+`). -/
def wordLang : Language Char := {l | l ≠ [] ∧ ∀ c ∈ l, isWordChar c = true}

/-- A bracketed or parenthesised index: `[word]` or `(word)`. -/
def idxLang : Language Char :=
  {l | ∃ w ∈ wordLang, l = '[' :: (w ++ [']']) ∨ l = '(' :: (w ++ [')'])}

/-- One `word(index)?` unit. -/
def unitLang : Language Char := wordLang * (1 + idxLang)

/-- A maximal separator-free segment as the pattern's `+`-group accepts it:
one or more `word(index)?` units in a row. -/
def segLang : Language Char := unitLang * KStar.kstar unitLang

/-- The separators the pattern's class `[-.]` really allows. -/
def sepLang : Language Char := {l | l = ['-'] ∨ l = ['.']}

/-- The language `NamePattern.match` accepts: a leading segment of one or
more `word(index)?` units, then any number of tails, each a `'.'` or `'-'`
separator followed by exactly one `word(index)?` unit, optionally followed
by one final newline (Python's `$`). -/
def acceptedLang : Language Char :=
  (segLang * KStar.kstar (sepLang * unitLang)) * (1 + ({['\n']} : Language Char))

/-- The grammar the claim states: single-unit segments separated by `'.'`
only. -/
def claimLang : Language Char :=
  (wordLang * (1 + idxLang)) *
    KStar.kstar (({['.']} : Language Char) * (wordLang * (1 + idxLang)))

/-- Every character of every member of `L` satisfies `P`. -/
def charBound (P : Char → Prop) (L : Language Char) : Prop := ∀ l ∈ L, ∀ c ∈ l, P c

/-- Characters that can occur in a member of the grammar the claim states. -/
def claimChar (c : Char) : Prop :=
  isWordChar c = true ∨ c = '[' ∨ c = ']' ∨ c = '(' ∨ c = ')' ∨ c = '.'

/-! ### `src/src/failures/core.py` — `Failure`, `Failures`, `Handler`, `Scope` -/

namespace Core

/-- `core._join` -/
def joinLabel (label1 label2 : String) : String := label1 ++ "." ++ label2

/-- A `Failure` / `Failures` object: a leaf wraps a source label and an error,
a group wraps a list of failures (`Failures.__init__` stores them in order and
never sets a `source` of its own). -/
inductive FTree where
  | leaf (source : String) (error : ExcVal)
  | group (fs : List FTree)
deriving Repr

mutual

/-- `Failure.within` / `Failures.within`: prepend a label to the source of a
leaf, or to every contained failure of a group (both return `self`). -/
def FTree.within : FTree → String → FTree
  | .leaf s e, n => .leaf (joinLabel n s) e
  | .group fs, n => .group (FTree.withinAll fs n)

/-- The list comprehension inside `Failures.within`. -/
def FTree.withinAll : List FTree → String → List FTree
  | [], _ => []
  | f :: fs, n => f.within n :: FTree.withinAll fs n

end

end Core

mutual

/-- The generator `Failures.failures` applied to one registered entry:
a nested `Failures` is flattened recursively (`yield from failure.failures`),
a plain `Failure` is yielded as is. -/
def Core.FTree.flatten : Core.FTree → List Core.FTree
  | .leaf s e => [.leaf s e]
  | .group fs => Core.FTree.flattenAll fs

/-- The generator `Failures.failures`: iterates the registered failures in
insertion order, recursing into nested groups. -/
def Core.FTree.flattenAll : List Core.FTree → List Core.FTree
  | [] => []
  | f :: fs => f.flatten ++ Core.FTree.flattenAll fs

end

mutual

/-- The `(source, error)` pairs of the leaves of a failure, in the order the
`Failures.failures` generator yields them. -/
def Core.FTree.leaves : Core.FTree → List (String × ExcVal)
  | .leaf s e => [(s, e)]
  | .group fs => Core.FTree.leavesAll fs

def Core.FTree.leavesAll : List Core.FTree → List (String × ExcVal)
  | [] => []
  | f :: fs => f.leaves ++ Core.FTree.leavesAll fs

end

namespace Core

def FTree.isLeaf : FTree → Bool
  | .leaf _ _ => true
  | .group _ => false

/-- A `Handler` object: the two filter tuples.  The wrapped
`handler_function` is modelled as a recording sink, so running a handler
returns the list of `(source, error)` sink invocations. -/
structure HandlerM where
  ignore : List ExcType
  propagate : List ExcType
deriving DecidableEq, Repr

/-- `Handler._match`: `bool(specification) and isinstance(failure.error,
specification)` — an empty tuple never matches, otherwise `isinstance`
against a tuple is a disjunction. -/
def matchSpec (spec : List ExcType) (e : ExcVal) : Bool :=
  !spec.isEmpty && spec.any (fun t => e.ty.subtypeOf t)

/-- The sink invocations a handler performs. -/
abbrev Trace := List (String × ExcVal)

/-- `Handler.__call__` on the stream of leaves of a failure: per leaf, check
`ignore` (drop), then `propagate` (`raise failure from None`, aborting the
iteration), otherwise call the sink.  Returns the trace of sink calls and the
re-raised leaf, if any. -/
def HandlerM.run (h : HandlerM) : List (String × ExcVal) → Trace × Option FTree
  | [] => ([], none)
  | (s, e) :: rest =>
    if matchSpec h.ignore e then h.run rest
    else if matchSpec h.propagate e then ([], some (.leaf s e))
    else
      let (tr, r) := h.run rest
      ((s, e) :: tr, r)

/-- `Handler.__call__`: a group is processed by recursing into the
`failures` generator (which yields only leaves); a leaf is processed
directly. -/
def HandlerM.call (h : HandlerM) (f : FTree) : Trace × Option FTree :=
  h.run f.leaves

/-- A Python object reaching a `Scope` boundary: a plain exception instance,
a `Failure`/`Failures` object together with its `__from_child_scope__`
attribute, or some non-exception object (for `add_failure` type errors). -/
inductive PyVal where
  | exc (e : ExcVal)
  | fail (t : FTree) (fromChild : Bool)
  | nonexc (oid : Nat)
deriving Repr

/-- `isinstance(v, Exception)` — `Failure` subclasses `Exception`. -/
def PyVal.isException : PyVal → Bool
  | .exc e => e.ty.subtypeOf .exception
  | .fail _ _ => true
  | .nonexc _ => false

/-- `isinstance(v, BaseException)` -/
def PyVal.isBaseException : PyVal → Bool
  | .exc _ => true
  | .fail _ _ => true
  | .nonexc _ => false

/-- `core._is_validation_error`: reads the `__validation_error__` attribute
(only `_invalid` ever sets it, and only on freshly constructed plain
exceptions). -/
def PyVal.isValidation : PyVal → Bool
  | .exc e => e.validation
  | _ => false

/-- The `__from_child_scope__` attribute (absent means `False`). -/
def PyVal.fromChild : PyVal → Bool
  | .fail _ b => b
  | _ => false

/-- `core._label_failure`: an existing `Failure`/`Failures` is relabeled in
place via `within` (its attributes survive), a plain exception is wrapped in
a fresh `Failure` (which has no `__from_child_scope__` attribute). -/
def labelFailurePy (v : PyVal) (label : String) : PyVal :=
  match v with
  | .fail t b => .fail (t.within label) b
  | .exc e => .fail (.leaf label e) false
  | .nonexc n => .nonexc n

/-- A `Scope` object: its fully qualified label, its handler, and whether it
was derived from another scope (`__origin is not None`).  The `__subs` set
only feeds a duplicate-name `UserWarning` and changes no data flow, so it is
not tracked.  A derived scope always forwards failures to the tree's root
(`origin`), so its own `__failures` list stays empty; the list of the owning
root is threaded explicitly through the functions below. -/
structure ScopeM where
  qualname : String
  handler : Option HandlerM
  child : Bool
deriving Repr

/-- A stored entry of the owning scope's `__failures` list: the failure tree
and the `__from_child_scope__` attribute of the stored object. -/
abbrev FEntry := FTree × Bool

/-- `Scope.add_failure`, returning the updated list of the owning scope.
For a derived scope the final append happens inside `origin.add_failure`
(the flag is set to `True` right before forwarding, and the origin then
skips relabeling and appends). -/
def ScopeM.addFailure (s : ScopeM) (owned : List FEntry) (arg : PyVal)
    (label : Option String) : Except VErr (List FEntry) :=
  if !arg.isException then .error (.typeError ("invalid error type"))
  else
    let labeled : Except VErr PyVal :=
      match label with
      | none => .ok arg
      | some l => (validateLabel (.str l)).map (labelFailurePy arg)
    labeled.bind fun a1 =>
      let a2 := if a1.fromChild then a1 else labelFailurePy a1 s.qualname
      match a2 with
      | .fail t b => .ok (owned ++ [(t, s.child || b)])
      | _ => .ok owned  -- unreachable: after `_label_failure` the value is a `Failure`

/-- `Failures(*fs) if len(fs) > 1 else fs[0]` — a single stored failure is
raised as the stored object itself (keeping its attributes), several are
wrapped in a fresh `Failures` group. -/
def combineEntries (x : FEntry) (xs : List FEntry) : FEntry :=
  match xs with
  | [] => x
  | _ => (.group ((x :: xs).map Prod.fst), false)

/-- Outcome of `Scope.handle` on the scope that owns its `__failures` list
(a scope with `__origin is None`; a derived scope's own list is always
empty, see `childHandle`). -/
inductive HandleRes where
  | returned (fails : List FEntry)
  | raisedFail (f : FEntry) (fails : List FEntry)
  | handlerRaised (tr : Trace) (f : FTree) (fails : List FEntry)
  | handled (tr : Trace) (fails : List FEntry)
deriving Repr

/-- `Scope.handle` for a root scope: optionally `add_failure(error)`, return
if nothing is collected, else raise the combined failure when no handler is
configured, otherwise run the handler — `self.__failures = []` runs only
when the handler returns normally. -/
def ScopeM.rootHandle (s : ScopeM) (fails : List FEntry) (err : Option PyVal) :
    Except VErr HandleRes :=
  let added : Except VErr (List FEntry) :=
    match err with
    | some v => if v.isException then s.addFailure fails v none else .ok fails
    | none => .ok fails
  added.bind fun fs =>
    match fs with
    | [] => .ok (.returned [])
    | x :: xs =>
      let fobj := combineEntries x xs
      match s.handler with
      | none => .ok (.raisedFail fobj (x :: xs))
      | some h =>
        match h.call fobj.1 with
        | (tr, some f) => .ok (.handlerRaised tr f (x :: xs))
        | (tr, none) => .ok (.handled tr [])

/-- `Scope.handle` for a derived scope: `add_failure` forwards into the
origin's list and the scope's own list stays empty, so `handle` returns
without raising.  The function returns the origin's updated list. -/
def ScopeM.childHandle (c : ScopeM) (rootFails : List FEntry) (err : Option PyVal) :
    Except VErr (List FEntry) :=
  match err with
  | some v => if v.isException then c.addFailure rootFails v none else .ok rootFails
  | none => .ok rootFails

/-- Outcome of `Scope.__exit__` for a root scope. -/
inductive ExitRes where
  | propagated (v : PyVal)
  | exited (r : HandleRes)
  | excVErr (e : VErr)
deriving Repr

/-- `Scope.__exit__` for a root scope: higher exceptions and validation
errors propagate unchanged (`return False`); otherwise `handle(error)`
runs and the scope suppresses the original exception (`return True`). -/
def ScopeM.rootExit (s : ScopeM) (fails : List FEntry) (err : Option PyVal) : ExitRes :=
  match err with
  | some v =>
    if (v.isBaseException && !v.isException) || v.isValidation then .propagated v
    else
      match s.rootHandle fails (some v) with
      | .ok r => .exited r
      | .error e => .excVErr e
  | none =>
    match s.rootHandle fails none with
    | .ok r => .exited r
    | .error e => .excVErr e

/-- Outcome of `Scope.__exit__` for a derived scope. -/
inductive ChildExitRes where
  | propagatedC (v : PyVal)
  | suppressedC (rootFails : List FEntry)
  | excVErrC (e : VErr)
deriving Repr

/-- `Scope.__exit__` for a derived scope: same guard, then `handle(error)`
forwards into the origin's list and the exception is suppressed. -/
def ScopeM.childExit (c : ScopeM) (rootFails : List FEntry) (err : Option PyVal) :
    ChildExitRes :=
  match err with
  | some v =>
    if (v.isBaseException && !v.isException) || v.isValidation then .propagatedC v
    else
      match c.childHandle rootFails (some v) with
      | .ok rf => .suppressedC rf
      | .error e => .excVErrC e
  | none =>
    match c.childHandle rootFails none with
    | .ok rf => .suppressedC rf
    | .error e => .excVErrC e

/-- The module-level `scope(name, handler)` helper: validates the name and
builds a root scope. -/
def scopeNew (name : String) (handler : Option HandlerM) : Except VErr ScopeM :=
  (validateLabel (.str name)).map fun n => ⟨n, handler, false⟩

/-- `Scope.__call__`: validates the child name, inherits the handler unless
one is passed, qualifies the name under the parent, and records the tree's
root as origin (the duplicate-name check only emits a `UserWarning`). -/
def ScopeM.callSub (s : ScopeM) (name : String) (handler : Option HandlerM) :
    Except VErr ScopeM :=
  (validateLabel (.str name)).map fun n =>
    ⟨joinLabel s.qualname n, (match handler with | none => s.handler | some h => some h), true⟩

/-- The coupled derivation of claim C2: `with scope(outer) as s:` /
`with s(inner):` with `raise e` inside the inner block; returns the failure
object the outer `with` raises on exit. -/
def coupledRaised (outer inner : String) (e : ExcVal) : Option FTree :=
  match scopeNew outer none with
  | .error _ => none
  | .ok root =>
    match root.callSub inner none with
    | .error _ => none
    | .ok child =>
      match child.childExit [] (some (.exc e)) with
      | .suppressedC rf =>
        match root.rootExit rf none with
        | .exited (.raisedFail f _) => some f.1
        | _ => none
      | _ => none

/-- The decoupled derivation of claim C2: a fresh `scope(inner)` raising `e`
inside a `with scope(outer)` block; the labeled failure raised by the inner
scope is re-caught and relabeled by the outer one. -/
def decoupledRaised (outer inner : String) (e : ExcVal) : Option FTree :=
  match scopeNew outer none, scopeNew inner none with
  | .ok oroot, .ok iroot =>
    (match iroot.rootExit [] (some (.exc e)) with
     | .exited (.raisedFail f _) =>
       (match oroot.rootExit [] (some (.fail f.1 f.2)) with
        | .exited (.raisedFail g _) => some g.1
        | _ => none)
     | _ => none)
  | _, _ => none

end Core

/-- The 1.0-dev `core.Failure` object for equality purposes: the class
defines no `__eq__`, so `==` falls back to `object.__eq__`, i.e. object
identity; it has `source` and `error` fields and no `details`. -/
structure Core.OldFailure where
  oid : Nat
  source : String
  error : ExcVal
deriving DecidableEq, Repr

/-- `==` on two 1.0-dev `core.Failure` instances: object identity. -/
def Core.oldFailureEq (a b : Core.OldFailure) : Bool := a.oid == b.oid

/-! ### `src/src/failures.py` — the 0.1.0 draft -/

namespace Legacy

/-- `Failures.failures` in the 0.1.0 draft is just
`yield from self.__failures`: it yields the registered entries themselves,
without recursing into nested groups (`_recursive_handler` recurses at
handling time instead). -/
def iterate010 (fs : List Core.FTree) : List Core.FTree := fs

/-- `scope.add_failure` of the 0.1.0 draft: a prepared `Failure` is
optionally relabeled (`if label:` — so the empty string counts as no label);
a plain exception requires a truthy label, otherwise a validation
`ValueError`; a non-exception is a validation `TypeError`.  Returns the
failure that gets appended to `self._failures`. -/
def addFailure010 (arg : Core.PyVal) (label : Option String) : Except VErr Core.FTree :=
  match arg with
  | .fail t _ =>
    match label with
    | some l => if l.isEmpty then .ok t else .ok (t.within l)
    | none => .ok t
  | .exc e =>
    if e.ty.subtypeOf .exception then
      match label with
      | some l =>
        if l.isEmpty then .error (.valueError "The error must be labeled")
        else .ok (.leaf l e)
      | none => .error (.valueError "The error must be labeled")
    else .error (.typeError "Invalid error type")
  | .nonexc _ => .error (.typeError "Invalid error type")

/-- Outcome of the 0.1.0 `scope.__exit__`. -/
inductive Exit010Res where
  | noopT
  | propagated0 (v : Core.PyVal)
  | raisedG (fs : List Core.FTree)
  | verr0 (e : VErr)
deriving Repr

/-- `scope.__exit__` of the 0.1.0 draft: clean exit with no failures is a
no-op; otherwise collected failures are relabeled under the scope's name, an
active `Exception` — validation errors included, there is no check for them
here — is added under the scope's name, a non-`Exception` `BaseException`
propagates, and finally the `Failures` group object itself is raised. -/
def exit010 (name : String) (st : Option (List Core.FTree)) (err : Option Core.PyVal) :
    Exit010Res :=
  match err, st with
  | none, none => .noopT
  | _, _ =>
    let st1 := st.map (fun fs => Core.FTree.withinAll fs name)
    match err with
    | some v =>
      if v.isException then
        match addFailure010 v (some name) with
        | .error e => .verr0 e
        | .ok t => .raisedG ((st1.getD []) ++ [t])
      else if v.isBaseException then .propagated0 v
      else .noopT  -- unreachable: a raised object is always a BaseException
    | none =>
      match st1 with
      | some fs => .raisedG fs
      | none => .noopT  -- unreachable: `(none, none)` was handled above

end Legacy

/-! ### `src/src/failures/handler.py` — the 2.x filter layer -/

namespace HV2

/-- Modelled from the spec: the 2.x `Failure` record `{source, error,
details}` (its defining module `failures/core.py` of that version is not
under `src/`; only `handler.py` and the tests reference it; the tests
compare freshly built instances with `==`, so it is a `NamedTuple`-style
value).  `oid` is the wrapper object's identity; details values are
modelled as strings. -/
structure FailureRec where
  oid : Nat
  source : String
  error : ExcVal
  details : List (String × String)
deriving DecidableEq, Repr

/-- `==` on exception instances (`Exception` defines no `__eq__`):
object identity. -/
def errPyEq (a b : ExcVal) : Bool := a.oid == b.oid

/-- `==` on Python dicts: same key set and equal values (insertion order is
irrelevant). -/
def dictEq (d1 d2 : List (String × String)) : Bool :=
  d1.all (fun kv => d2.lookup kv.1 == some kv.2) &&
  d2.all (fun kv => d1.lookup kv.1 == some kv.2)

/-- Modelled from the spec: `==` of the 2.x `Failure` NamedTuple —
component-wise comparison of `(source, error, details)`, the error by
identity and the details as dicts, ignoring the wrapper's own identity. -/
def failureRecEq (a b : FailureRec) : Bool :=
  a.source == b.source && errPyEq a.error b.error && dictEq a.details b.details

/-- A filter specification passed to `handler.filters`: a label or glob
string, an exception type, a list (OR) or a tuple (AND) of specifications.
(Prepared `FailureMatch` objects and `_match_all` pass through unchanged and
are not modelled.) -/
inductive SpecF where
  | strS (s : String)
  | excS (t : ExcType)
  | lst (xs : List SpecF)
  | tup (xs : List SpecF)
deriving Repr

/-- A compiled filter as `filters` builds it: `_match_all`,
`FailureLabelMatch`, `FailureLabelPatternMatch`, `FailureExceptionMatch`, or
an `any`/`all` combination. -/
inductive CompiledF where
  | matchAllF
  | labelF (s : String)
  | patternF (glob : String)
  | excF (t : ExcType)
  | anyF (cs : List CompiledF)
  | allF (cs : List CompiledF)
deriving Repr

mutual

/-- Structural equality of compiled filters; only the `matchAllF` row is
ever used (for `_match_all in _filters`, where Python compares the unique
`_match_all` function object by identity). -/
def CompiledF.beq : CompiledF → CompiledF → Bool
  | .matchAllF, .matchAllF => true
  | .labelF a, .labelF b => a == b
  | .patternF a, .patternF b => a == b
  | .excF a, .excF b => a == b
  | .anyF as, .anyF bs => CompiledF.beqList as bs
  | .allF as, .allF bs => CompiledF.beqList as bs
  | _, _ => false

def CompiledF.beqList : List CompiledF → List CompiledF → Bool
  | [], [] => true
  | a :: as, b :: bs => CompiledF.beq a b && CompiledF.beqList as bs
  | _, _ => false

end

instance : BEq CompiledF := ⟨CompiledF.beq⟩

/-- Errors `filters` raises: `_invalid(TypeError, "Cannot use an empty
{list|tuple} ...")`, or the plain (unmarked) `TypeError("Unsupported filter
type ...")`. -/
inductive FiltErr where
  | emptySpec (isListSpec : Bool)
  | unsupported
deriving DecidableEq, Repr

mutual

/-- `handler.filters`: strings compile to `_match_all` (`"*"`), a glob
pattern match (a `*` somewhere) or an exact label match; `Exception` itself
compiles to `_match_all`, other exception types to `FailureExceptionMatch`;
a list or tuple is compiled element-wise — empty is a validation error, a
single element is unwrapped, a list containing `_match_all` collapses to
`_match_all`, and otherwise a list combines with `any`, a tuple with
`all`. -/
def filtersC : SpecF → Except FiltErr CompiledF
  | .strS s =>
    if s = "*" then .ok .matchAllF
    else if s.data.contains '*' then .ok (.patternF s)
    else .ok (.labelF s)
  | .excS t =>
    if t = .exception then .ok .matchAllF
    else if t.subtypeOf .exception then .ok (.excF t)
    else .error .unsupported
  | .lst xs =>
    match xs with
    | [] => .error (.emptySpec true)
    | _ =>
      (filtersList xs).bind fun cs =>
        match cs with
        | [c] => .ok c
        | _ => if cs.contains .matchAllF then .ok .matchAllF else .ok (.anyF cs)
  | .tup xs =>
    match xs with
    | [] => .error (.emptySpec false)
    | _ =>
      (filtersList xs).bind fun cs =>
        match cs with
        | [c] => .ok c
        | _ => .ok (.allF cs)

/-- `list(map(filters, spec))` with error propagation. -/
def filtersList : List SpecF → Except FiltErr (List CompiledF)
  | [] => .ok []
  | x :: xs => (filtersC x).bind fun c => (filtersList xs).map fun cs => c :: cs

end

/-- `re.escape(pattern)` with `'\*'` turned back into `'.*'`, compiled under
`DOTALL`: every character is literal except `*`, which matches any sequence
of characters. -/
def globRe : List Char → Re
  | [] => .eps
  | c :: cs =>
    if c = '*' then .cat (.star (.cls fun _ => true)) (globRe cs)
    else .cat (Re.chr c) (globRe cs)

/-- `pattern.match(source)`: anchored at the start only, so a prefix
match. -/
def globPrefixRe (g : List Char) : Re := .cat (globRe g) (.star (.cls fun _ => true))

mutual

/-- Applying a compiled filter to a failure: `FailureLabelMatch` compares
the source, `FailureLabelPatternMatch` runs the glob pattern as a prefix
match, `FailureExceptionMatch` does `isinstance(err, exc_type)` (the
`issubclass` arm for class-valued errors is not modelled — errors here are
always instances). -/
def evalC : CompiledF → FailureRec → Bool
  | .matchAllF, _ => true
  | .labelF s, f => f.source == s
  | .patternF g, f => (globPrefixRe g.data).rmatch f.source.data
  | .excF t, f => f.error.ty.subtypeOf t
  | .anyF cs, f => evalAny cs f
  | .allF cs, f => evalAll cs f

/-- `any(_filter(failure) for _filter in _filters)` -/
def evalAny : List CompiledF → FailureRec → Bool
  | [], _ => false
  | c :: cs, f => evalC c f || evalAny cs f

/-- `all(_filter(failure) for _filter in _filters)` -/
def evalAll : List CompiledF → FailureRec → Bool
  | [], _ => true
  | c :: cs, f => evalC c f && evalAll cs f

end

/-- Compile a specification and apply it to a failure. -/
def filterMatches (spec : SpecF) (f : FailureRec) : Except FiltErr Bool :=
  (filtersC spec).map (evalC · f)

end HV2

/-- `f.within(lN)` … `.within(l1)`: N nested `within` calls, applied
innermost-first — the last label of the list is applied first, the head of
the list last, so the head ends up outermost. -/
def Core.nestedWithin (ls : List String) (f : Core.FTree) : Core.FTree :=
  ls.foldr (fun l t => t.within l) f

/-- The handler of claim C6, as `handler_(sink, ignore=ValueError,
propagate=Exception)` builds it: `ignore=(ValueError,)`,
`propagate=(Exception,)`. -/
def Core.veHandler : Core.HandlerM := ⟨[.valueError], [.exception]⟩

/-! ### Correctness of the matcher and the pattern language -/

theorem emp_rmatch (x : List Char) : Re.emp.rmatch x = false := by
  induction x <;> simp [Re.rmatch, Re.deriv, Re.nullable, *]

theorem eps_rmatch_iff (x : List Char) : Re.eps.rmatch x ↔ x = [] := by
  cases x <;> simp [Re.rmatch, Re.deriv, Re.nullable, emp_rmatch]

theorem cls_rmatch_iff (p : Char → Bool) (x : List Char) :
    (Re.cls p).rmatch x = true ↔ ∃ c, p c = true ∧ x = [c] := by
  cases x with
  | nil =>
    simp only [Re.rmatch, Re.nullable, Bool.false_eq_true, false_iff]
    rintro ⟨c, _, hx⟩
    cases hx
  | cons c s =>
    simp only [Re.rmatch, Re.deriv]
    by_cases h : p c = true
    · rw [if_pos h, eps_rmatch_iff]
      constructor
      · rintro rfl
        exact ⟨c, h, rfl⟩
      · rintro ⟨d, hd, hx⟩
        exact (List.cons_eq_cons.mp hx).2
    · rw [if_neg h, emp_rmatch]
      simp only [Bool.false_eq_true, false_iff]
      rintro ⟨d, hd, hx⟩
      obtain ⟨h1, h2⟩ := List.cons_eq_cons.mp hx
      subst h1
      exact h hd

theorem alt_rmatch_iff (a b : Re) (x : List Char) :
    (Re.alt a b).rmatch x ↔ a.rmatch x ∨ b.rmatch x := by
  induction x generalizing a b with
  | nil => simp [Re.rmatch, Re.nullable]
  | cons c s ih => simpa [Re.rmatch, Re.deriv] using ih (a.deriv c) (b.deriv c)

theorem cat_rmatch_iff (a b : Re) (x : List Char) :
    (Re.cat a b).rmatch x ↔ ∃ t u : List Char, x = t ++ u ∧ a.rmatch t ∧ b.rmatch u := by
  induction x generalizing a b with
  | nil =>
    simp only [Re.rmatch, Re.nullable, Bool.and_eq_true]
    constructor
    · rintro ⟨h1, h2⟩
      exact ⟨[], [], rfl, h1, h2⟩
    · rintro ⟨t, u, htu, h1, h2⟩
      obtain ⟨rfl, rfl⟩ := List.append_eq_nil.mp htu.symm
      exact ⟨h1, h2⟩
  | cons c s ih =>
    simp only [Re.rmatch, Re.deriv]
    by_cases hn : a.nullable = true
    · rw [if_pos hn, alt_rmatch_iff, ih]
      constructor
      · rintro (⟨t, u, htu, h1, h2⟩ | h)
        · exact ⟨c :: t, u, by simp [htu], h1, h2⟩
        · exact ⟨[], c :: s, rfl, hn, h⟩
      · rintro ⟨t, u, htu, h1, h2⟩
        cases t with
        | nil =>
          right
          rw [List.nil_append] at htu
          rw [← htu] at h2
          simpa [Re.rmatch] using h2
        | cons d t' =>
          left
          injection htu with hc hrest
          subst hc
          exact ⟨t', u, hrest, h1, h2⟩
    · rw [if_neg hn, ih]
      constructor
      · rintro ⟨t, u, htu, h1, h2⟩
        exact ⟨c :: t, u, by simp [htu], h1, h2⟩
      · rintro ⟨t, u, htu, h1, h2⟩
        cases t with
        | nil => exact absurd h1 (by simpa using hn)
        | cons d t' =>
          injection htu with hc hrest
          subst hc
          exact ⟨t', u, hrest, h1, h2⟩

theorem star_rmatch_iff (a : Re) (x : List Char) :
    (Re.star a).rmatch x = true ↔
      ∃ S : List (List Char), x = S.flatten ∧ ∀ t ∈ S, t ≠ [] ∧ a.rmatch t = true := by
  have IH := fun t (ht : List.length t < List.length x) => star_rmatch_iff a t
  constructor
  · cases x with
    | nil => intro _; exact ⟨[], rfl, by simp⟩
    | cons c s =>
      simp only [Re.rmatch, Re.deriv]
      rw [cat_rmatch_iff]
      rintro ⟨t, u, htu, h1, h2⟩
      have hlen : u.length < (c :: s).length := by
        have : s.length = t.length + u.length := by rw [htu, List.length_append]
        simp only [List.length_cons]
        omega
      obtain ⟨S, rfl, hS⟩ := (IH u hlen).mp h2
      refine ⟨(c :: t) :: S, by simp [htu], ?_⟩
      intro t' ht'
      rcases List.mem_cons.mp ht' with rfl | hmem
      · exact ⟨by simp, by simpa [Re.rmatch] using h1⟩
      · exact hS t' hmem
  · rintro ⟨S, rfl, hS⟩
    induction S with
    | nil => simp [Re.rmatch, Re.nullable]
    | cons t S' ihS =>
      cases t with
      | nil => exact absurd rfl (hS [] (by simp)).1
      | cons c t' =>
        simp only [List.flatten, List.cons_append, Re.rmatch, Re.deriv]
        rw [cat_rmatch_iff]
        refine ⟨t', S'.flatten, rfl, ?_, ?_⟩
        · have := (hS (c :: t') (by simp)).2
          simpa [Re.rmatch] using this
        · have hlt : S'.flatten.length < ((c :: t') :: S').flatten.length := by
            simp only [List.flatten, List.length_append, List.length_cons]
            omega
          exact (IH S'.flatten hlt).mpr ⟨S', rfl, fun t ht => hS t (by simp [ht])⟩
termination_by x.length
decreasing_by exact ht

/-- Correctness of the executable matcher with respect to the denoted
language. -/
theorem rmatch_iff_lang (r : Re) (x : List Char) : r.rmatch x = true ↔ x ∈ r.lang := by
  induction r generalizing x with
  | emp => simp [emp_rmatch, Re.lang]
  | eps =>
    rw [eps_rmatch_iff]
    simp [Re.lang, Language.mem_one]
  | cls p =>
    rw [cls_rmatch_iff]
    simp only [Re.lang, clsLang]
    constructor
    · rintro ⟨c, hc, rfl⟩; exact ⟨c, hc, rfl⟩
    · rintro ⟨c, hc, rfl⟩; exact ⟨c, hc, rfl⟩
  | cat a b iha ihb =>
    rw [cat_rmatch_iff]
    simp only [Re.lang, Language.mem_mul]
    constructor
    · rintro ⟨t, u, rfl, h1, h2⟩
      exact ⟨t, (iha t).mp h1, u, (ihb u).mp h2, rfl⟩
    · rintro ⟨t, ht, u, hu, rfl⟩
      exact ⟨t, u, rfl, (iha t).mpr ht, (ihb u).mpr hu⟩
  | alt a b iha ihb =>
    rw [alt_rmatch_iff]
    simp only [Re.lang, Language.mem_add]
    rw [iha, ihb]
  | star a iha =>
    rw [star_rmatch_iff]
    simp only [Re.lang]
    rw [Language.mem_kstar_iff_exists_nonempty]
    constructor
    · rintro ⟨S, rfl, hS⟩
      exact ⟨S, rfl, fun t ht => ⟨(iha t).mp (hS t ht).2, (hS t ht).1⟩⟩
    · rintro ⟨S, rfl, hS⟩
      exact ⟨S, rfl, fun t ht => ⟨(hS t ht).2, (iha t).mpr (hS t ht).1⟩⟩

theorem clsLang_chr (c : Char) : clsLang (fun d => d == c) = ({[c]} : Language Char) := by
  ext l
  constructor
  · rintro ⟨d, hd, rfl⟩
    simp only [beq_iff_eq] at hd
    rw [hd]
    rfl
  · rintro rfl
    exact ⟨c, by simp, rfl⟩

theorem flatten_singletons {α : Type} (l : List α) :
    (l.map (fun a => [a])).flatten = l := by
  induction l <;> simp [*]

theorem plus1_cls_lang (p : Char → Bool) :
    (Re.plus1 (.cls p)).lang = {l | l ≠ [] ∧ ∀ c ∈ l, p c = true} := by
  ext l
  simp only [Re.plus1, Re.lang, Language.mem_mul, Set.mem_setOf_eq]
  constructor
  · rintro ⟨a, ha, b, hb, rfl⟩
    obtain ⟨c, hc, rfl⟩ := ha
    rw [Language.mem_kstar] at hb
    obtain ⟨S, rfl, hS⟩ := hb
    refine ⟨by simp, ?_⟩
    intro d hd
    rcases List.mem_append.mp hd with h | h
    · rw [List.mem_singleton.mp h]
      exact hc
    · obtain ⟨y, hy, hdy⟩ := List.mem_flatten.mp h
      obtain ⟨e, he, rfl⟩ := hS y hy
      rw [List.mem_singleton.mp hdy]
      exact he
  · rintro ⟨hne, hall⟩
    cases l with
    | nil => exact absurd rfl hne
    | cons c cs =>
      refine ⟨[c], ⟨c, hall c (by simp), rfl⟩, cs, ?_, rfl⟩
      rw [Language.mem_kstar]
      refine ⟨cs.map (fun d => [d]), (flatten_singletons cs).symm, ?_⟩
      intro y hy
      obtain ⟨d, hd, rfl⟩ := List.mem_map.mp hy
      exact ⟨d, hall d (by simp [hd]), rfl⟩

theorem wordRe_lang : wordRe.lang = wordLang :=
  plus1_cls_lang isWordChar

theorem sepCls_lang : clsLang sepChar = sepLang := by
  ext l
  simp only [clsLang, sepChar, sepLang, Set.mem_setOf_eq]
  constructor
  · rintro ⟨c, hc, rfl⟩
    rcases Bool.or_eq_true_iff.mp hc with h | h
    · left; rw [beq_iff_eq.mp h]
    · right; rw [beq_iff_eq.mp h]
  · rintro (rfl | rfl)
    · exact ⟨'-', by simp, rfl⟩
    · exact ⟨'.', by simp, rfl⟩

theorem mem_chr_mul (c : Char) (L : Language Char) (l : List Char) :
    l ∈ ({[c]} : Language Char) * L ↔ ∃ m ∈ L, l = c :: m := by
  rw [Language.mem_mul]
  constructor
  · rintro ⟨a, ha, b, hb, rfl⟩
    rw [Set.mem_singleton_iff.mp ha]
    exact ⟨b, hb, rfl⟩
  · rintro ⟨m, hm, rfl⟩
    exact ⟨[c], rfl, m, hm, rfl⟩

theorem mem_mul_chr (L : Language Char) (c : Char) (l : List Char) :
    l ∈ L * ({[c]} : Language Char) ↔ ∃ m ∈ L, l = m ++ [c] := by
  rw [Language.mem_mul]
  constructor
  · rintro ⟨a, ha, b, hb, rfl⟩
    rw [Set.mem_singleton_iff.mp hb]
    exact ⟨a, ha, rfl⟩
  · rintro ⟨m, hm, rfl⟩
    exact ⟨m, hm, [c], rfl, rfl⟩

theorem idxRe_lang : idxRe.lang = idxLang := by
  have hre : idxRe.lang =
      ({['[']} : Language Char) * (wordLang * ({[']']} : Language Char)) +
        ({['(']} : Language Char) * (wordLang * ({[')']} : Language Char)) := by
    show clsLang (fun d => d == '[') * (wordRe.lang * clsLang (fun d => d == ']')) +
        clsLang (fun d => d == '(') * (wordRe.lang * clsLang (fun d => d == ')')) = _
    rw [wordRe_lang, clsLang_chr, clsLang_chr, clsLang_chr, clsLang_chr]
  ext l
  rw [hre]
  simp only [Language.mem_add, idxLang, Set.mem_setOf_eq]
  rw [mem_chr_mul, mem_chr_mul]
  constructor
  · rintro (⟨m, hm, rfl⟩ | ⟨m, hm, rfl⟩)
    · rw [mem_mul_chr] at hm
      obtain ⟨w, hw, rfl⟩ := hm
      exact ⟨w, hw, Or.inl rfl⟩
    · rw [mem_mul_chr] at hm
      obtain ⟨w, hw, rfl⟩ := hm
      exact ⟨w, hw, Or.inr rfl⟩
  · rintro ⟨w, hw, rfl | rfl⟩
    · exact Or.inl ⟨w ++ [']'], (mem_mul_chr _ _ _).mpr ⟨w, hw, rfl⟩, rfl⟩
    · exact Or.inr ⟨w ++ [')'], (mem_mul_chr _ _ _).mpr ⟨w, hw, rfl⟩, rfl⟩

theorem unitRe_lang : unitRe.lang = unitLang := by
  show wordRe.lang * ((1 : Language Char) + idxRe.lang) = unitLang
  rw [wordRe_lang, idxRe_lang]
  rfl

theorem groupRe_lang : groupRe.lang = segLang := by
  show unitRe.lang * KStar.kstar unitRe.lang = segLang
  rw [unitRe_lang]
  rfl

theorem pyMatchRe_lang : pyMatchRe.lang = acceptedLang := by
  show (groupRe.lang * KStar.kstar (clsLang sepChar * unitRe.lang)) *
      ((1 : Language Char) + clsLang (fun d => d == '\n')) = acceptedLang
  rw [groupRe_lang, unitRe_lang, sepCls_lang, clsLang_chr]
  rfl

theorem charBound_mul {P : Char → Prop} {L M : Language Char}
    (hL : charBound P L) (hM : charBound P M) : charBound P (L * M) := by
  intro l hl c hc
  rw [Language.mem_mul] at hl
  obtain ⟨a, ha, b, hb, rfl⟩ := hl
  rcases List.mem_append.mp hc with h | h
  · exact hL a ha c h
  · exact hM b hb c h

theorem charBound_kstar {P : Char → Prop} {L : Language Char}
    (hL : charBound P L) : charBound P (KStar.kstar L) := by
  intro l hl c hc
  rw [Language.mem_kstar] at hl
  obtain ⟨S, rfl, hS⟩ := hl
  obtain ⟨y, hy, hcy⟩ := List.mem_flatten.mp hc
  exact hL y (hS y hy) c hcy

theorem charBound_add {P : Char → Prop} {L M : Language Char}
    (hL : charBound P L) (hM : charBound P M) : charBound P (L + M) := by
  intro l hl c hc
  rcases (Language.mem_add L M l).mp hl with h | h
  · exact hL l h c hc
  · exact hM l h c hc

theorem charBound_one {P : Char → Prop} : charBound P 1 := by
  intro l hl c hc
  rw [Language.mem_one] at hl
  subst hl
  cases hc

theorem wordLang_charBound : charBound claimChar wordLang := by
  rintro l ⟨_, hall⟩ c hc
  exact Or.inl (hall c hc)

theorem idxLang_charBound : charBound claimChar idxLang := by
  rintro l ⟨w, ⟨hwne, hwall⟩, h⟩ c hc
  rcases h with rfl | rfl
  · rcases List.mem_cons.mp hc with rfl | h2
    · exact Or.inr (Or.inl rfl)
    · rcases List.mem_append.mp h2 with h3 | h3
      · exact Or.inl (hwall c h3)
      · obtain rfl := List.mem_singleton.mp h3
        exact Or.inr (Or.inr (Or.inl rfl))
  · rcases List.mem_cons.mp hc with rfl | h2
    · exact Or.inr (Or.inr (Or.inr (Or.inl rfl)))
    · rcases List.mem_append.mp h2 with h3 | h3
      · exact Or.inl (hwall c h3)
      · obtain rfl := List.mem_singleton.mp h3
        exact Or.inr (Or.inr (Or.inr (Or.inr (Or.inl rfl))))

theorem dotLang_charBound : charBound claimChar ({['.']} : Language Char) := by
  intro l hl c hc
  rw [Set.mem_singleton_iff] at hl
  subst hl
  obtain rfl := List.mem_singleton.mp hc
  exact Or.inr (Or.inr (Or.inr (Or.inr (Or.inr rfl))))

theorem claimLang_charBound : charBound claimChar claimLang := by
  have hunit : charBound claimChar (wordLang * (1 + idxLang)) :=
    charBound_mul wordLang_charBound (charBound_add charBound_one idxLang_charBound)
  exact charBound_mul hunit (charBound_kstar (charBound_mul dotLang_charBound hunit))

theorem unitLang_le_segLang : unitLang ≤ segLang := by
  intro x hx
  rw [segLang, Language.mem_mul]
  exact ⟨x, hx, [], Language.nil_mem_kstar _, by simp⟩

theorem dot_le_sepLang : ({['.']} : Language Char) ≤ sepLang := by
  intro x hx
  rw [Set.mem_singleton_iff] at hx
  exact Or.inr hx

theorem claimLang_le_acceptedLang : claimLang ≤ acceptedLang := by
  have hbase : claimLang ≤ segLang * KStar.kstar (sepLang * unitLang) :=
    Language.le_mul_congr unitLang_le_segLang
      (kstar_mono (Language.le_mul_congr dot_le_sepLang (le_refl unitLang)))
  intro x hx
  rw [acceptedLang, Language.mem_mul]
  refine ⟨x, hbase hx, [], Or.inl rfl, by simp⟩

/-! ### Helper lemmas about `String.intercalate` and flattening -/

theorem intercalate_go_append (sep : String) (bs : List String) :
    ∀ x y : String, String.intercalate.go (x ++ y) sep bs = x ++ String.intercalate.go y sep bs := by
  induction bs with
  | nil => intro x y; rfl
  | cons b bs ih =>
    intro x y
    show String.intercalate.go (x ++ y ++ sep ++ b) sep bs = _
    rw [String.append_assoc, String.append_assoc, ih x (y ++ (sep ++ b))]
    rw [← String.append_assoc y sep b]
    rfl

theorem intercalate_cons_of_ne_nil (sep a : String) (l : List String) (h : l ≠ []) :
    String.intercalate sep (a :: l) = a ++ sep ++ String.intercalate sep l := by
  cases l with
  | nil => exact absurd rfl h
  | cons b bs =>
    show String.intercalate.go a sep (b :: bs) = a ++ sep ++ String.intercalate.go b sep bs
    have hstep : String.intercalate.go a sep (b :: bs)
        = String.intercalate.go (a ++ sep ++ b) sep bs := rfl
    rw [hstep, String.append_assoc a sep b, intercalate_go_append sep bs a (sep ++ b),
      intercalate_go_append sep bs sep b, ← String.append_assoc]

theorem flattenAll_append (fs gs : List Core.FTree) :
    Core.FTree.flattenAll (fs ++ gs)
      = Core.FTree.flattenAll fs ++ Core.FTree.flattenAll gs := by
  induction fs with
  | nil => rfl
  | cons f fs ih =>
    show f.flatten ++ Core.FTree.flattenAll (fs ++ gs)
        = (f.flatten ++ Core.FTree.flattenAll fs) ++ Core.FTree.flattenAll gs
    rw [ih, List.append_assoc]

mutual

theorem flatten_isLeaf : ∀ (f : Core.FTree), ∀ t ∈ f.flatten, t.isLeaf = true
  | .leaf s e, t, ht => by
    obtain rfl := List.mem_singleton.mp ht
    rfl
  | .group fs, t, ht => flattenAll_isLeaf fs t ht

theorem flattenAll_isLeaf : ∀ (fs : List Core.FTree), ∀ t ∈ Core.FTree.flattenAll fs, t.isLeaf = true
  | [], t, ht => absurd ht (List.not_mem_nil t)
  | f :: fs, t, ht => by
    rcases List.mem_append.mp ht with h | h
    · exact flatten_isLeaf f t h
    · exact flattenAll_isLeaf fs t h

end

mutual

theorem flatten_eq_leaves (f : Core.FTree) :
    f.flatten = f.leaves.map (fun p => Core.FTree.leaf p.1 p.2) := by
  cases f with
  | leaf s e => rfl
  | group fs => exact flattenAll_eq_leaves fs

theorem flattenAll_eq_leaves (fs : List Core.FTree) :
    Core.FTree.flattenAll fs
      = (Core.FTree.leavesAll fs).map (fun p => Core.FTree.leaf p.1 p.2) := by
  cases fs with
  | nil => rfl
  | cons f fs =>
    show f.flatten ++ Core.FTree.flattenAll fs = _
    rw [flatten_eq_leaves f, flattenAll_eq_leaves fs]
    show _ = (f.leaves ++ Core.FTree.leavesAll fs).map _
    rw [List.map_append]

end

theorem leavesAll_of_flattenAll_eq {fs gs : List Core.FTree}
    (h : Core.FTree.flattenAll fs = Core.FTree.flattenAll gs) :
    Core.FTree.leavesAll fs = Core.FTree.leavesAll gs := by
  rw [flattenAll_eq_leaves, flattenAll_eq_leaves] at h
  refine List.map_injective_iff.mpr ?_ h
  rintro ⟨a, b⟩ ⟨c, d⟩ hcd
  injection hcd with h1 h2
  exact Prod.ext h1 h2

/-! ### The claims -/

/-- C1 (amended): in `core.py`, every scope — root or derived, with or
without a handler — lets a validation error observed at exit propagate
unchanged: `__exit__` returns `False` with the very same object, nothing is
wrapped, relabeled or recorded.  (In the legacy `src/src/failures.py` draft
the exit path has no validation-error check and wraps it — see the
counterexample theorem.) -/
theorem validation_error_bypasses_core_scopes :
    ∀ (s : Core.ScopeM) (fails rootFails : List Core.FEntry) (v : Core.PyVal),
      v.isValidation = true →
      s.rootExit fails (some v) = .propagated v ∧
      s.childExit rootFails (some v) = .propagatedC v := by
  intro s fails rootFails v hv
  constructor
  · simp [Core.ScopeM.rootExit, hv]
  · simp [Core.ScopeM.childExit, hv]

/-- Witness for C1: a concrete validation `ValueError` bypasses a bare root
scope and a handler-bearing derived scope alike. -/
theorem validation_error_bypasses_core_scopes_witness :
    Core.ScopeM.rootExit ⟨"s", none, false⟩ []
        (some (.exc ⟨.valueError, "bad", true, 3⟩))
      = .propagated (.exc ⟨.valueError, "bad", true, 3⟩) ∧
    Core.ScopeM.childExit ⟨"s.c", some ⟨[], []⟩, true⟩ []
        (some (.exc ⟨.valueError, "bad", true, 3⟩))
      = .propagatedC (.exc ⟨.valueError, "bad", true, 3⟩) :=
  ⟨(validation_error_bypasses_core_scopes ⟨"s", none, false⟩ [] []
      (.exc ⟨.valueError, "bad", true, 3⟩) rfl).1,
   (validation_error_bypasses_core_scopes ⟨"s.c", some ⟨[], []⟩, true⟩ [] []
      (.exc ⟨.valueError, "bad", true, 3⟩) rfl).2⟩

/-- C1 counterexample: in the 0.1.0 draft (`src/src/failures.py`,
`scope.__exit__`), an unbound scope wraps an in-block validation error into
a labeled `Failures` group and raises the group — the caller does not
receive the original validation-error object. -/
theorem legacy_scope_wraps_validation_error :
    Legacy.exit010 "root" none (some (.exc ⟨.valueError, "invalid name", true, 9⟩))
      = .raisedG [.leaf "root" ⟨.valueError, "invalid name", true, 9⟩] ∧
    Legacy.exit010 "root" none (some (.exc ⟨.valueError, "invalid name", true, 9⟩))
      ≠ .propagated0 (.exc ⟨.valueError, "invalid name", true, 9⟩) := by
  refine ⟨rfl, ?_⟩
  have h1 : Legacy.exit010 "root" none (some (.exc ⟨.valueError, "invalid name", true, 9⟩))
      = .raisedG [.leaf "root" ⟨.valueError, "invalid name", true, 9⟩] := rfl
  rw [h1]
  simp

/-- C2: for the same two-level chain of scope names and the same raised
error, the coupled derivation (child scope created through the parent's call
operator) and the decoupled derivation (fresh root scope whose labeled
failure is raised and re-caught inside the enclosing scope) surface the same
failure: source `outer ++ "." ++ inner` and the identical error object. -/
theorem coupled_decoupled_equivalence :
    ∀ (outer inner : String) (e : ExcVal),
      validateLabel (.str outer) = .ok outer →
      validateLabel (.str inner) = .ok inner →
      e.validation = false →
      e.ty.subtypeOf .exception = true →
      Core.coupledRaised outer inner e = some (.leaf (outer ++ "." ++ inner) e) ∧
      Core.decoupledRaised outer inner e = some (.leaf (outer ++ "." ++ inner) e) := by
  intro outer inner e h1 h2 h3 h4
  have hexc : (Core.PyVal.exc e).isException = true := h4
  have hval : (Core.PyVal.exc e).isValidation = false := h3
  have hs1 : Core.scopeNew outer none = .ok ⟨outer, none, false⟩ := by
    unfold Core.scopeNew
    rw [h1]
    rfl
  have hs2 : Core.scopeNew inner none = .ok ⟨inner, none, false⟩ := by
    unfold Core.scopeNew
    rw [h2]
    rfl
  have hsub : Core.ScopeM.callSub ⟨outer, none, false⟩ inner none
      = .ok ⟨Core.joinLabel outer inner, none, true⟩ := by
    unfold Core.ScopeM.callSub
    rw [h2]
    rfl
  have haddc : Core.ScopeM.addFailure ⟨Core.joinLabel outer inner, none, true⟩ []
      (.exc e) none = .ok [(.leaf (Core.joinLabel outer inner) e, true)] := by
    unfold Core.ScopeM.addFailure
    rw [hexc]
    rfl
  have hadd0 : Core.ScopeM.addFailure ⟨inner, none, false⟩ [] (.exc e) none
      = .ok [(.leaf inner e, false)] := by
    unfold Core.ScopeM.addFailure
    rw [hexc]
    rfl
  have hce : Core.ScopeM.childExit ⟨Core.joinLabel outer inner, none, true⟩ []
      (some (.exc e)) = .suppressedC [(.leaf (Core.joinLabel outer inner) e, true)] := by
    simp only [Core.ScopeM.childExit, Core.ScopeM.childHandle, hexc, hval,
      Core.PyVal.isBaseException, Bool.not_true, Bool.and_false, Bool.false_or,
      Bool.false_eq_true, if_false, if_true, haddc]
  have hre : ∀ (q : String) (t : Core.FTree) (b : Bool),
      Core.ScopeM.rootExit ⟨q, none, false⟩ [(t, b)] none
        = .exited (.raisedFail (t, b) [(t, b)]) := fun q t b => rfl
  constructor
  · unfold Core.coupledRaised
    simp only [hs1, hsub, hce, hre]
    rfl
  · have hie : Core.ScopeM.rootExit ⟨inner, none, false⟩ [] (some (.exc e))
        = .exited (.raisedFail (.leaf inner e, false) [(.leaf inner e, false)]) := by
      simp only [Core.ScopeM.rootExit, Core.ScopeM.rootHandle, hexc, hval,
        Core.PyVal.isBaseException, Bool.not_true, Bool.and_false, Bool.false_or,
        Bool.false_eq_true, if_false, if_true, hadd0, Except.bind, Core.combineEntries]
    have hoe : Core.ScopeM.rootExit ⟨outer, none, false⟩ []
        (some (.fail (.leaf inner e) false))
        = .exited (.raisedFail (.leaf (Core.joinLabel outer inner) e, false)
            [(.leaf (Core.joinLabel outer inner) e, false)]) := rfl
    unfold Core.decoupledRaised
    simp only [hs1, hs2, hie, hoe]
    rfl

/-- Witness for C2: outer scope `"testing"`, inner scope `"function"`,
raising `ValueError("x")` — both derivations surface the failure with source
`"testing.function"` and the same error object. -/
theorem coupled_decoupled_equivalence_witness :
    Core.coupledRaised "testing" "function" ⟨.valueError, "x", false, 0⟩
      = some (.leaf ("testing" ++ "." ++ "function") ⟨.valueError, "x", false, 0⟩) ∧
    Core.decoupledRaised "testing" "function" ⟨.valueError, "x", false, 0⟩
      = some (.leaf ("testing" ++ "." ++ "function") ⟨.valueError, "x", false, 0⟩) :=
  coupled_decoupled_equivalence "testing" "function" ⟨.valueError, "x", false, 0⟩
    rfl rfl rfl rfl

/-- C3 (amended): `_validate_label` rejects every non-string with a
validation `TypeError`, and accepts a string exactly when it lies in
`acceptedLang` — the claim's grammar extended by `'-'` as a second
separator, by a leading segment that may chain several `word(index)?` units
in a row (each segment after a separator stays a single unit), and by one
optional trailing newline (Python's `$`); any rejected string gets a
validation `ValueError`, and the claim's grammar is contained in the
accepted language, so no claimed-valid label is ever rejected. -/
theorem label_validation_characterized :
    (∀ n : Nat, validateLabel (.nonstr n) = .error (.typeError "label must be a string")) ∧
    (∀ s : String, validateLabel (.str s) = .ok s ↔ s.data ∈ acceptedLang) ∧
    (∀ s : String, validateLabel (.str s) = .ok s ∨
      validateLabel (.str s) = .error (.valueError ("invalid label: " ++ s))) ∧
    claimLang ≤ acceptedLang := by
  refine ⟨fun n => rfl, fun s => ?_, fun s => ?_, claimLang_le_acceptedLang⟩
  · simp only [validateLabel]
    by_cases h : pyMatchRe.rmatch s.data = true
    · rw [if_pos h]
      exact iff_of_true rfl (pyMatchRe_lang ▸ (rmatch_iff_lang pyMatchRe s.data).mp h)
    · rw [if_neg h]
      refine iff_of_false (fun hcon => Except.noConfusion hcon) (fun hmem => ?_)
      exact h ((rmatch_iff_lang pyMatchRe s.data).mpr (by rw [pyMatchRe_lang]; exact hmem))
  · simp only [validateLabel]
    by_cases h : pyMatchRe.rmatch s.data = true
    · exact Or.inl (by rw [if_pos h])
    · exact Or.inr (by rw [if_neg h])

/-- C3 counterexample: the label `"a-b"` uses `'-'` as a separator — it is
outside the grammar the claim states — yet `_validate_label` returns it
unchanged instead of raising a validation `ValueError`. -/
theorem label_validation_accepts_hyphen :
    validateLabel (.str "a-b") = .ok "a-b" ∧ "a-b".data ∉ claimLang := by
  refine ⟨rfl, fun hmem => ?_⟩
  have hdash : ('-' : Char) ∈ "a-b".data := by decide
  have h := claimLang_charBound "a-b".data hmem '-' hdash
  simp only [claimChar] at h
  revert h
  decide

/-- C4: `Failure.within` replaces the source `s` by `label ++ "." ++ s`, and
`N` nested `within` calls applied innermost-first produce the dot-join of
all `N` labels followed by the original source — no segment dropped,
duplicated or reordered. -/
theorem within_prepends_and_nests :
    (∀ (s : String) (e : ExcVal) (l : String),
        (Core.FTree.leaf s e).within l = .leaf (l ++ "." ++ s) e) ∧
    (∀ (ls : List String) (s : String) (e : ExcVal),
        Core.nestedWithin ls (.leaf s e)
          = .leaf (String.intercalate "." (ls ++ [s])) e) := by
  refine ⟨fun s e l => rfl, fun ls s e => ?_⟩
  induction ls with
  | nil => rfl
  | cons l ls ih =>
    show (Core.nestedWithin ls (.leaf s e)).within l = _
    rw [ih]
    show Core.FTree.leaf (Core.joinLabel l (String.intercalate "." (ls ++ [s]))) e = _
    rw [List.cons_append, intercalate_cons_of_ne_nil "." l (ls ++ [s]) (by simp)]
    rfl

/-- C5 (amended): in `core.py`, the `Failures.failures` iterator yields only
leaves (never a group object), in depth-first insertion order: it
concatenates over the registered entries, a leaf yields itself, and a nested
group unwraps to its own flattened leaves, so nesting depth does not affect
the flattened order.  (In the 0.1.0 draft the iterator yields the registered
entries unflattened — see the counterexample theorem.) -/
theorem failures_iterator_flattens :
    (∀ fs : List Core.FTree, (Core.FTree.flattenAll fs).all Core.FTree.isLeaf = true) ∧
    (∀ fs gs : List Core.FTree,
        Core.FTree.flattenAll (fs ++ gs)
          = Core.FTree.flattenAll fs ++ Core.FTree.flattenAll gs) ∧
    (∀ fs : List Core.FTree,
        Core.FTree.flattenAll [Core.FTree.group fs] = Core.FTree.flattenAll fs) ∧
    (∀ (s : String) (e : ExcVal),
        Core.FTree.flattenAll [Core.FTree.leaf s e] = [Core.FTree.leaf s e]) := by
  refine ⟨fun fs => ?_, flattenAll_append, fun fs => ?_, fun s e => rfl⟩
  · rw [List.all_eq_true]
    intro t ht
    exact flattenAll_isLeaf fs t ht
  · show Core.FTree.flattenAll fs ++ [] = Core.FTree.flattenAll fs
    rw [List.append_nil]

/-- C5 counterexample: in the 0.1.0 draft, `Failures.failures` is
`yield from self.__failures`: a nested group registered among the failures
is yielded as a group object instead of its leaves. -/
theorem legacy_iterator_yields_nested_group :
    Legacy.iterate010 [.leaf "a" ⟨.valueError, "x", false, 0⟩,
        .group [.leaf "b" ⟨.typeError, "y", false, 1⟩]]
      = [.leaf "a" ⟨.valueError, "x", false, 0⟩,
        .group [.leaf "b" ⟨.typeError, "y", false, 1⟩]] ∧
    (Core.FTree.group [.leaf "b" ⟨.typeError, "y", false, 1⟩]) ∈
      Legacy.iterate010 [.leaf "a" ⟨.valueError, "x", false, 0⟩,
        .group [.leaf "b" ⟨.typeError, "y", false, 1⟩]] ∧
    (Core.FTree.group [.leaf "b" ⟨.typeError, "y", false, 1⟩]).isLeaf = false :=
  ⟨rfl, List.mem_cons_of_mem _ (List.mem_singleton_self _), rfl⟩

/-- C6: `Handler.__call__` recurses into groups first — only the flattened
leaf stream matters, so two groups with the same flattening are handled
identically — and per leaf checks `ignore` before `propagate` before the
sink: with `ignore=ValueError` and `propagate=Exception`, a `ValueError`
failure is dropped with no sink invocation (even though `propagate` also
matches it), and a failure of any other `Exception` subtype is re-raised
(again with no sink invocation). -/
theorem handler_dispatch_order :
    (∀ (h : Core.HandlerM) (fs gs : List Core.FTree),
        Core.FTree.flattenAll fs = Core.FTree.flattenAll gs →
        h.call (.group fs) = h.call (.group gs)) ∧
    (∀ (s : String) (e : ExcVal), e.ty.subtypeOf .valueError = true →
        Core.veHandler.call (.leaf s e) = ([], none)) ∧
    (∀ (s : String) (e : ExcVal), e.ty.subtypeOf .exception = true →
        e.ty.subtypeOf .valueError = false →
        Core.veHandler.call (.leaf s e) = ([], some (.leaf s e))) := by
  refine ⟨fun h fs gs hfg => ?_, fun s e hve => ?_, fun s e hexc hnve => ?_⟩
  · show h.run (Core.FTree.leavesAll fs) = h.run (Core.FTree.leavesAll gs)
    rw [leavesAll_of_flattenAll_eq hfg]
  · have hi : Core.matchSpec Core.veHandler.ignore e = true := by
      simp [Core.matchSpec, Core.veHandler, hve]
    show Core.veHandler.run [(s, e)] = ([], none)
    simp [Core.HandlerM.run, hi]
  · have hi : Core.matchSpec Core.veHandler.ignore e = false := by
      simp [Core.matchSpec, Core.veHandler, hnve]
    have hp : Core.matchSpec Core.veHandler.propagate e = true := by
      simp [Core.matchSpec, Core.veHandler, hexc]
    show Core.veHandler.run [(s, e)] = ([], some (.leaf s e))
    simp [Core.HandlerM.run, hi, hp]

/-- Witness for C6: a concrete `ValueError` failure is dropped silently, a
concrete `TypeError` failure is re-raised, and one extra level of grouping
does not change what the handler does. -/
theorem handler_dispatch_order_witness :
    Core.veHandler.call (.leaf "src" ⟨.valueError, "v", false, 0⟩) = ([], none) ∧
    Core.veHandler.call (.leaf "src" ⟨.typeError, "t", false, 1⟩)
      = ([], some (.leaf "src" ⟨.typeError, "t", false, 1⟩)) ∧
    Core.veHandler.call (.group [.group [.leaf "a" ⟨.keyError, "k", false, 2⟩]])
      = Core.veHandler.call (.group [.leaf "a" ⟨.keyError, "k", false, 2⟩]) :=
  ⟨handler_dispatch_order.2.1 "src" ⟨.valueError, "v", false, 0⟩ rfl,
   handler_dispatch_order.2.2 "src" ⟨.typeError, "t", false, 1⟩ rfl rfl,
   handler_dispatch_order.1 Core.veHandler
     [.group [.leaf "a" ⟨.keyError, "k", false, 2⟩]]
     [.leaf "a" ⟨.keyError, "k", false, 2⟩] rfl⟩

/-- C7 (amended): in the 0.1.0 draft (`src/src/failures.py`), `add_failure`
with a raw exception and no label raises a validation `ValueError`; in
`core.py`, by contrast, `Scope.add_failure` accepts the raw exception and
records it wrapped under the scope's own qualified label — no validation
error is raised, and nothing is recorded unlabeled. -/
theorem add_failure_unlabeled_raw :
    (∀ e : ExcVal, e.ty.subtypeOf .exception = true →
        Legacy.addFailure010 (.exc e) none
          = .error (.valueError "The error must be labeled")) ∧
    (∀ (q : String) (hd : Option Core.HandlerM) (owned : List Core.FEntry) (e : ExcVal),
        e.ty.subtypeOf .exception = true →
        Core.ScopeM.addFailure ⟨q, hd, false⟩ owned (.exc e) none
          = .ok (owned ++ [(.leaf q e, false)])) := by
  refine ⟨fun e he => ?_, fun q hd owned e he => ?_⟩
  · simp [Legacy.addFailure010, he]
  · have hexc : (Core.PyVal.exc e).isException = true := he
    unfold Core.ScopeM.addFailure
    rw [hexc]
    rfl

/-- Witness for C7: concrete instances of both behaviours. -/
theorem add_failure_unlabeled_raw_witness :
    Legacy.addFailure010 (.exc ⟨.valueError, "boom", false, 4⟩) none
      = .error (.valueError "The error must be labeled") ∧
    Core.ScopeM.addFailure ⟨"s", none, false⟩ []
        (.exc ⟨.valueError, "boom", false, 4⟩) none
      = .ok ([] ++ [(.leaf "s" ⟨.valueError, "boom", false, 4⟩, false)]) :=
  ⟨add_failure_unlabeled_raw.1 ⟨.valueError, "boom", false, 4⟩ rfl,
   add_failure_unlabeled_raw.2 "s" none [] ⟨.valueError, "boom", false, 4⟩ rfl⟩

/-- C7 counterexample: `core.py`'s `Scope.add_failure` takes a raw exception
with no label and returns normally, recording it under the scope's qualified
label — the claim's validation error is not raised. -/
theorem core_add_failure_accepts_unlabeled_raw :
    Core.ScopeM.addFailure ⟨"s", none, false⟩ []
        (.exc ⟨.valueError, "boom", false, 4⟩) none
      = .ok [(.leaf "s" ⟨.valueError, "boom", false, 4⟩, false)] := rfl

/-- C8: compiled by `filters`, a list of exception types matches with OR
semantics and a tuple with AND semantics: `[ValueError, TypeError]` matches
a `ValueError` failure and a `TypeError` failure alike, while
`(ValueError, TypeError)` does not match a failure whose error is only a
`ValueError`. -/
theorem filter_list_or_tuple_and :
    ∀ (n : Nat) (src : String) (d : List (String × String)) (e : ExcVal),
      (e.ty.subtypeOf .valueError = true →
        HV2.filterMatches (.lst [.excS .valueError, .excS .typeError]) ⟨n, src, e, d⟩
          = .ok true) ∧
      (e.ty.subtypeOf .typeError = true →
        HV2.filterMatches (.lst [.excS .valueError, .excS .typeError]) ⟨n, src, e, d⟩
          = .ok true) ∧
      (e.ty.subtypeOf .valueError = true → e.ty.subtypeOf .typeError = false →
        HV2.filterMatches (.tup [.excS .valueError, .excS .typeError]) ⟨n, src, e, d⟩
          = .ok false) := by
  intro n src d e
  have hlst : HV2.filtersC (.lst [.excS .valueError, .excS .typeError])
      = .ok (.anyF [.excF .valueError, .excF .typeError]) := rfl
  have htup : HV2.filtersC (.tup [.excS .valueError, .excS .typeError])
      = .ok (.allF [.excF .valueError, .excF .typeError]) := rfl
  refine ⟨fun h => ?_, fun h => ?_, fun h1 h2 => ?_⟩ <;>
    simp [HV2.filterMatches, hlst, htup, Except.map, HV2.evalC, HV2.evalAny,
      HV2.evalAll, *]

/-- Witness for C8: the concrete failures of the claim — same source, one
`ValueError`, one `TypeError`. -/
theorem filter_list_or_tuple_and_witness :
    HV2.filterMatches (.lst [.excS .valueError, .excS .typeError])
        ⟨0, "s1", ⟨.valueError, "v", false, 0⟩, []⟩ = .ok true ∧
    HV2.filterMatches (.lst [.excS .valueError, .excS .typeError])
        ⟨1, "s1", ⟨.typeError, "t", false, 1⟩, []⟩ = .ok true ∧
    HV2.filterMatches (.tup [.excS .valueError, .excS .typeError])
        ⟨0, "s1", ⟨.valueError, "v", false, 0⟩, []⟩ = .ok false :=
  ⟨(filter_list_or_tuple_and 0 "s1" [] ⟨.valueError, "v", false, 0⟩).1 rfl,
   (filter_list_or_tuple_and 1 "s1" [] ⟨.typeError, "t", false, 1⟩).2.1 rfl,
   (filter_list_or_tuple_and 0 "s1" [] ⟨.valueError, "v", false, 0⟩).2.2 rfl rfl⟩

/-- C9 counterexample: the `Failure` class of the cited `core.py` lines
defines no `__eq__`, so two distinct instances with equal `source` and equal
`error` compare unequal — equality there is object identity, not field
equality (and the class has no `details` field at all). -/
theorem old_failure_equality_is_identity :
    Core.oldFailureEq ⟨0, "s", ⟨.valueError, "x", false, 7⟩⟩
        ⟨1, "s", ⟨.valueError, "x", false, 7⟩⟩ = false ∧
    (Core.OldFailure.mk 0 "s" ⟨.valueError, "x", false, 7⟩).source
      = (Core.OldFailure.mk 1 "s" ⟨.valueError, "x", false, 7⟩).source ∧
    (Core.OldFailure.mk 0 "s" ⟨.valueError, "x", false, 7⟩).error
      = (Core.OldFailure.mk 1 "s" ⟨.valueError, "x", false, 7⟩).error :=
  ⟨rfl, rfl, rfl⟩

/-- C9 (amended): the 2.x NamedTuple-style `Failure` (modelled from the
spec; its module is missing from `src/`) compares by fields: two values are
`==` iff their sources are equal, their underlying errors are the same
object, and their details agree as dicts — the wrapper's own identity plays
no role.  The `core.py` `Failure` of the cited lines instead compares by
object identity. -/
theorem failure_equality_by_fields :
    (∀ a b : HV2.FailureRec,
        HV2.failureRecEq a b = true ↔
          (a.source = b.source ∧ a.error.oid = b.error.oid ∧
            HV2.dictEq a.details b.details = true)) ∧
    (∀ a b : Core.OldFailure, Core.oldFailureEq a b = true ↔ a.oid = b.oid) := by
  constructor
  · intro a b
    simp [HV2.failureRecEq, HV2.errPyEq, Bool.and_eq_true, and_assoc]
  · intro a b
    simp [Core.oldFailureEq]

/-- C10: `Scope.handle` clears `self.__failures` only after its handler
returns normally.  If the handler re-raises (a propagate filter matched one
of the leaves), the collected list — including the leaves already delivered
to the sink before the raise — is left exactly as it was, so the next
`handle()` of the same scope starts from the same list and delivers them to
the sink again; when the handler completes, the list is cleared. -/
theorem handle_clears_only_after_success :
    ∀ (s : Core.ScopeM) (x : Core.FEntry) (xs : List Core.FEntry)
      (h : Core.HandlerM) (tr : Core.Trace),
      s.handler = some h →
      (∀ f : Core.FTree, h.call (Core.combineEntries x xs).1 = (tr, some f) →
        s.rootHandle (x :: xs) none = .ok (.handlerRaised tr f (x :: xs))) ∧
      (h.call (Core.combineEntries x xs).1 = (tr, none) →
        s.rootHandle (x :: xs) none = .ok (.handled tr [])) := by
  intro s x xs h tr hs
  constructor
  · intro f hcall
    simp [Core.ScopeM.rootHandle, Except.bind, hs, hcall]
  · intro hcall
    simp [Core.ScopeM.rootHandle, Except.bind, hs, hcall]

/-- Witness for C10: a scope whose handler propagates `TypeError`; the
first leaf is sunk, the second re-raises, and the collected list survives
unchanged. -/
theorem handle_clears_only_after_success_witness :
    Core.ScopeM.rootHandle ⟨"s", some ⟨[], [.typeError]⟩, false⟩
        [(.leaf "a" ⟨.valueError, "v", false, 0⟩, false),
         (.leaf "b" ⟨.typeError, "t", false, 1⟩, false)] none
      = .ok (.handlerRaised [("a", ⟨.valueError, "v", false, 0⟩)]
          (.leaf "b" ⟨.typeError, "t", false, 1⟩)
          [(.leaf "a" ⟨.valueError, "v", false, 0⟩, false),
           (.leaf "b" ⟨.typeError, "t", false, 1⟩, false)]) :=
  (handle_clears_only_after_success ⟨"s", some ⟨[], [.typeError]⟩, false⟩
      (.leaf "a" ⟨.valueError, "v", false, 0⟩, false)
      [(.leaf "b" ⟨.typeError, "t", false, 1⟩, false)]
      ⟨[], [.typeError]⟩ [("a", ⟨.valueError, "v", false, 0⟩)] rfl).1
    (.leaf "b" ⟨.typeError, "t", false, 1⟩) rfl

end FailuresVerification
